import Mathlib

/-!
Verification of the core algorithms of `lsystem_generator.py`:
the streaming L-system rewriter `stream_expand` and the turtle
interpreter `interpret_to_polylines`.

Modelling conventions:
* Python strings of symbols are `List Char`; dicts are association lists
  (`List.lookup`, first match — keys are unique in the source configs).
* The `while stack:` loop of `stream_expand` is embedded as a step
  function `expandStep` (one loop iteration) driven by an explicit
  iteration budget; `stackWeight` is a termination measure, and we prove
  that running the loop for `stackWeight` iterations empties the stack,
  which is the faithful meaning of the unbounded `while` loop.
* Float coordinates and angles are modelled as real numbers, with
  `math.cos`/`math.sin`/`math.radians` as their exact counterparts.
* `raise ConfigError(...)` / `raise RuntimeError(...)` become an
  `Except LsysError` result; messages are kept (abridged to plain text).
-/

namespace LSys

/-- A production rule set: the `rules` dict of the source, as an
association list from a symbol to its replacement word. -/
abbrev Rules := List (Char × List Char)

/-- An expansion frame `(current_string, index, depth)` as pushed on the
explicit stack of `stream_expand`. -/
abbrev Frame := List Char × Nat × Nat

/-- Termination measure for one symbol at a remaining rewriting budget
`fuel = iterations - depth`: an upper bound on the work needed to fully
expand the symbol. -/
def symWeight (rules : Rules) : Nat → Char → Nat
  | 0, _ => 1
  | fuel + 1, ch =>
    match rules.lookup ch with
    | none => 1
    | some repl => 2 + (repl.map (symWeight rules fuel)).sum

/-- Termination measure of a frame: total weight of its not-yet-consumed
symbols. -/
def frameWeight (rules : Rules) (iterations : Nat) : Frame → Nat
  | (s, i, d) => ((s.drop i).map (symWeight rules (iterations - d))).sum

/-- Termination measure of the whole explicit stack. -/
def stackWeight (rules : Rules) (iterations : Nat) (stack : List Frame) : Nat :=
  (stack.map (fun f => frameWeight rules iterations f + 1)).sum

/-- One iteration of the `while stack:` loop body of `stream_expand`
(source lines 139-155): pop the top frame; discard it if exhausted;
otherwise push the continuation and either push the replacement frame
(when `d < iterations and ch in rules`) or yield the symbol.  Returns
the symbols yielded by this iteration (none or one) and the new stack;
the top of the stack is the head of the list. -/
def expandStep (rules : Rules) (iterations : Nat) : List Frame → List Char × List Frame
  | [] => ([], [])
  | (s, i, d) :: rest =>
    if h : i < s.length then
      match rules.lookup s[i] with
      | some repl =>
        if d < iterations then
          ([], (repl, 0, d + 1) :: (s, i + 1, d) :: rest)
        else
          ([s[i]], (s, i + 1, d) :: rest)
      | none => ([s[i]], (s, i + 1, d) :: rest)
    else
      ([], rest)

/-- Run the `while stack:` loop of `stream_expand` for at most `fuel`
iterations, collecting the yielded symbols in order.  The loop exits as
soon as the stack is empty, exactly as in the source. -/
def expandRun (rules : Rules) (iterations : Nat) : Nat → List Frame → List Char × List Frame
  | 0, stack => ([], stack)
  | _ + 1, [] => ([], [])
  | fuel + 1, f :: rest =>
    let p := expandStep rules iterations (f :: rest)
    let q := expandRun rules iterations fuel p.2
    (p.1 ++ q.1, q.2)

/-- `stream_expand` (source lines 127-155): expand `ax` under `rules`
for `iterations` generations, starting from the stack `[(axiom, 0, 0)]`
and looping until the stack is empty (`stackWeight` iterations always
suffice, as proved below).  The `iterations >= 0` requirement of the
source is enforced by the `Nat` type. -/
def stream_expand (ax : List Char) (rules : Rules) (iterations : Nat) : List Char :=
  (expandRun rules iterations (stackWeight rules iterations [(ax, 0, 0)]) [(ax, 0, 0)]).1

/-- The spec's naive recursive definition `expand(sym, depth)`, indexed
by the remaining budget `fuel = N - depth`: if `depth < N` and the
symbol has a rule, expand every symbol of the replacement one level
deeper; otherwise yield the symbol itself.  This definition follows the
spec's words and is the comparison point of the refinement claim. -/
def expandNaive (rules : Rules) : Nat → Char → List Char
  | 0, ch => [ch]
  | fuel + 1, ch =>
    match rules.lookup ch with
    | some repl => (repl.map (expandNaive rules fuel)).flatten
    | none => [ch]

/-- The symbols a single frame will still produce, per the naive
definition. -/
def frameOut (rules : Rules) (iterations : Nat) : Frame → List Char
  | (s, i, d) => ((s.drop i).map (expandNaive rules (iterations - d))).flatten

/-- The symbols a whole stack will still produce, top of stack first. -/
def stackOut (rules : Rules) (iterations : Nat) (stack : List Frame) : List Char :=
  (stack.map (frameOut rules iterations)).flatten

/-- The example rule set `{A → AB, B → A}` of the spec. -/
def exRules : Rules := [('A', ['A', 'B']), ('B', ['A'])]

/-- Turtle state `(x, y, heading_deg)` (source lines 82-86); floats are
modelled as real numbers. -/
structure TurtleState where
  x : ℝ
  y : ℝ
  heading_deg : ℝ

/-- A 2-D point. -/
abbrev Point := ℝ × ℝ

/-- The error classes the core can raise: `ConfigError` (every `_require`
failure and explicit `raise ConfigError`) and `RuntimeError` (raised by
`PolylineBuffer.current` on an empty buffer).  Messages are kept, abridged
to plain text. -/
inductive LsysError where
  | configError (msg : String)
  | runtimeError (msg : String)

/-- True exactly for errors of the `ConfigError` class. -/
def LsysError.isConfigError : LsysError → Bool
  | .configError _ => true
  | .runtimeError _ => false

/-- `PolylineBuffer` (source lines 163-181): the list of polylines under
construction; the active polyline is the last one. -/
structure PolylineBuffer where
  polylines : List (List Point)

/-- `PolylineBuffer.start_new`: append a fresh polyline holding only `p`. -/
def PolylineBuffer.start_new (b : PolylineBuffer) (p : Point) : PolylineBuffer :=
  ⟨b.polylines ++ [[p]]⟩

/-- `PolylineBuffer.add_point`: append `p` to the active (last) polyline
unless that polyline already ends in `p`; `current()` raises `RuntimeError`
when the buffer holds no polyline.  The source's two branches
(`if not cur` and `if cur[-1] != p`) are both covered by the `getLast?`
comparison, since an empty polyline has no last point. -/
noncomputable def PolylineBuffer.add_point (b : PolylineBuffer) (p : Point) :
    Except LsysError PolylineBuffer :=
  match b.polylines.getLast? with
  | none => .error (.runtimeError "current called before start_new")
  | some cur =>
    if cur.getLast? = some p then .ok b
    else .ok ⟨b.polylines.dropLast ++ [cur ++ [p]]⟩

/-- The turtle action variants of the source's command dicts, with the
optional fields already resolved (`angle` and `step` multipliers default
to 1 at parse time).  The `direction` of `turn` is kept unconstrained, as
in the dict, and validated at dispatch time exactly as the source does;
dict shapes that are unrepresentable here (missing `type`, unknown type,
wrong field types) are rejected by the source before dispatch. -/
inductive TurtleAction where
  | forward (draw : Bool) (stepMult : ℝ)
  | turn (direction : Int) (angleMult : ℝ)
  | turn_abs (angle : ℝ)
  | push
  | pop
  | noop

/-- The command table `turtle.commands`, as an association list. -/
abbrev CmdTable := List (Char × TurtleAction)

/-- Resolve a symbol to its action: table lookup, else the configured
default policy (source lines 230-237). -/
def resolveAction (cmds : CmdTable) (default_action : String) (sym : Char) :
    TurtleAction :=
  match cmds.lookup sym with
  | some a => a
  | none =>
    if default_action = "forward_draw" then .forward true 1
    else if default_action = "forward_move" then .forward false 1
    else .noop

/-- `math.radians`. -/
noncomputable def radiansOf (deg : ℝ) : ℝ := deg * Real.pi / 180

/-- `math.cos(math.radians(deg))`. -/
noncomputable def cosDeg (deg : ℝ) : ℝ := Real.cos (radiansOf deg)

/-- `math.sin(math.radians(deg))`. -/
noncomputable def sinDeg (deg : ℝ) : ℝ := Real.sin (radiansOf deg)

/-- The interpreter's loop state: current position and heading, the
polyline buffer, and the branch stack (top of stack = head). -/
structure InterpState where
  x : ℝ
  y : ℝ
  heading : ℝ
  buf : PolylineBuffer
  stack : List TurtleState

/-- Dispatch of one symbol: the body of the `for sym in symbols` loop of
`interpret_to_polylines` (source lines 229-316). -/
noncomputable def interpretSym (cmds : CmdTable) (angle_deg step : ℝ)
    (default_action : String) (st : InterpState) (sym : Char) :
    Except LsysError InterpState :=
  match resolveAction cmds default_action sym with
  | .noop => .ok st
  | .turn direction a =>
    if direction = -1 ∨ direction = 1 then
      .ok { st with heading := st.heading + (direction : ℝ) * a * angle_deg }
    else
      .error (.configError "turn command must have direction -1 or 1")
  | .turn_abs a => .ok { st with heading := st.heading + a }
  | .push =>
    -- No new polyline is started here (source lines 273-280).
    .ok { st with stack := ⟨st.x, st.y, st.heading⟩ :: st.stack }
  | .pop =>
    match st.stack with
    | [] => .error (.configError "pop command encountered with empty stack")
    | top :: rest =>
      .ok { st with x := top.x, y := top.y, heading := top.heading_deg,
                    stack := rest, buf := st.buf.start_new (top.x, top.y) }
  | .forward draw mult =>
    let dist := step * mult
    let nx := st.x + dist * cosDeg st.heading
    let ny := st.y + dist * sinDeg st.heading
    if draw then
      match st.buf.add_point (nx, ny) with
      | .error e => .error e
      | .ok b2 => .ok { st with x := nx, y := ny, buf := b2 }
    else
      .ok { st with x := nx, y := ny, buf := st.buf.start_new (nx, ny) }

/-- The `for sym in symbols` loop, threading the state through
`interpretSym` and stopping at the first error. -/
noncomputable def interpretLoop (cmds : CmdTable) (angle_deg step : ℝ)
    (default_action : String) :
    InterpState → List Char → Except LsysError InterpState
  | st, [] => .ok st
  | st, sym :: rest =>
    match interpretSym cmds angle_deg step default_action st sym with
    | .error e => .error e
    | .ok st2 => interpretLoop cmds angle_deg step default_action st2 rest

/-- The interpreter's initial state (source lines 221-227): position and
heading from `start`, buffer seeded with one polyline holding the start
point, empty branch stack. -/
def initState (start : TurtleState) : InterpState :=
  ⟨start.x, start.y, start.heading_deg, ⟨[[(start.x, start.y)]]⟩, []⟩

/-- `interpret_to_polylines` (source lines 187-323): validate `step` and
`default_action`, run the dispatch loop over the symbols, then drop every
polyline with fewer than 2 points. -/
noncomputable def interpret_to_polylines (symbols : List Char) (cmds : CmdTable)
    (angle_deg step : ℝ) (start : TurtleState) (default_action : String) :
    Except LsysError (List (List Point)) :=
  if 0 < step then
    if default_action = "forward_draw" ∨ default_action = "forward_move"
        ∨ default_action = "noop" then
      match interpretLoop cmds angle_deg step default_action (initState start) symbols with
      | .error e => .error e
      | .ok st => .ok (st.buf.polylines.filter (fun pl => decide (2 ≤ pl.length)))
    else
      .error (.configError "default_action must be forward_draw, forward_move, or noop")
  else
    .error (.configError "turtle.step must be > 0")

/-- One iteration of the bounds fold (source lines 339-348), updating
`(min_x, min_y, max_x, max_y)` with a single point; `math.inf` is
modelled by `⊤ : EReal` and `-math.inf` by `⊥`. -/
noncomputable def boundsUpdate (acc : EReal × EReal × EReal × EReal) (p : Point) :
    EReal × EReal × EReal × EReal :=
  (min acc.1 (p.1 : EReal), min acc.2.1 (p.2 : EReal),
   max acc.2.2.1 (p.1 : EReal), max acc.2.2.2 (p.2 : EReal))

/-- `compute_bounds` (source lines 335-349): requires a non-empty polyline
list, then folds min/max over every point of every polyline. -/
noncomputable def compute_bounds (polylines : List (List Point)) :
    Except LsysError (EReal × EReal × EReal × EReal) :=
  if 0 < polylines.length then
    .ok (polylines.foldl (fun acc pl => pl.foldl boundsUpdate acc) (⊤, ⊤, ⊥, ⊥))
  else
    .error (.configError "No drawable geometry produced.")

/-- Command table of the spec's branching example:
F=forward(draw), +=turn(+1), [=push, ]=pop. -/
noncomputable def cmdsBranch : CmdTable :=
  [('F', .forward true 1), ('+', .turn 1 1), ('[', .push), (']', .pop)]

/-- Command table of the spec's pen-up example: F=forward(draw),
f=forward(no draw). -/
noncomputable def cmdsPenUp : CmdTable :=
  [('F', .forward true 1), ('f', .forward false 1)]

/-- Command table of the spec's absolute-turn example: A=turn_abs(90),
F=forward(draw). -/
noncomputable def cmdsTurnAbs : CmdTable :=
  [('A', .turn_abs 90), ('F', .forward true 1)]

/-- A command table with only a pop command. -/
noncomputable def cmdsPop : CmdTable := [(']', .pop)]

/-- A command table with only a push command. -/
noncomputable def cmdsPush : CmdTable := [('[', .push)]

/-- A command table with only a noop command. -/
noncomputable def cmdsNoop : CmdTable := [('X', .noop)]

/-- A command table with only a draw-forward command. -/
noncomputable def cmdsDraw : CmdTable := [('F', .forward true 1)]

/-- A concrete interpreter state used by witnesses: position (1,2),
heading 3, one buffered polyline, one saved state on the branch stack. -/
noncomputable def stWitness : InterpState := ⟨1, 2, 3, ⟨[[(1, 2)]]⟩, [⟨4, 5, 6⟩]⟩

end LSys
namespace LSys

theorem one_le_symWeight (rules : Rules) (fuel : Nat) (ch : Char) :
    1 ≤ symWeight rules fuel ch := by
  cases fuel with
  | zero => simp [symWeight]
  | succ n =>
    cases h : rules.lookup ch with
    | none => simp [symWeight, h]
    | some repl => simp only [symWeight, h]; omega

theorem stackWeight_cons (rules : Rules) (N : Nat) (f : Frame) (rest : List Frame) :
    stackWeight rules N (f :: rest) = frameWeight rules N f + 1 + stackWeight rules N rest := by
  simp [stackWeight]

theorem stackOut_cons (rules : Rules) (N : Nat) (f : Frame) (rest : List Frame) :
    stackOut rules N (f :: rest) = frameOut rules N f ++ stackOut rules N rest := by
  simp [stackOut]

theorem frameWeight_split (rules : Rules) (N : Nat) (s : List Char) (i d : Nat)
    (hi : i < s.length) :
    frameWeight rules N (s, i, d)
      = symWeight rules (N - d) s[i] + frameWeight rules N (s, i + 1, d) := by
  simp only [frameWeight]
  rw [List.drop_eq_getElem_cons hi, List.map_cons, List.sum_cons]

theorem frameOut_split (rules : Rules) (N : Nat) (s : List Char) (i d : Nat)
    (hi : i < s.length) :
    frameOut rules N (s, i, d)
      = expandNaive rules (N - d) s[i] ++ frameOut rules N (s, i + 1, d) := by
  simp only [frameOut]
  rw [List.drop_eq_getElem_cons hi, List.map_cons, List.flatten_cons]

theorem frameWeight_exhausted (rules : Rules) (N : Nat) (s : List Char) (i d : Nat)
    (hi : ¬ i < s.length) : frameWeight rules N (s, i, d) = 0 := by
  simp [frameWeight, List.drop_eq_nil_of_le (Nat.le_of_not_lt hi)]

theorem frameOut_exhausted (rules : Rules) (N : Nat) (s : List Char) (i d : Nat)
    (hi : ¬ i < s.length) : frameOut rules N (s, i, d) = [] := by
  simp [frameOut, List.drop_eq_nil_of_le (Nat.le_of_not_lt hi)]

theorem expandStep_weight (rules : Rules) (N : Nat) (f : Frame) (rest : List Frame) :
    stackWeight rules N (expandStep rules N (f :: rest)).2
      < stackWeight rules N (f :: rest) := by
  obtain ⟨s, i, d⟩ := f
  by_cases hi : i < s.length
  · have hsplit := frameWeight_split rules N s i d hi
    cases hlk : rules.lookup s[i] with
    | none =>
      simp only [expandStep, dif_pos hi, hlk]
      rw [stackWeight_cons, stackWeight_cons, hsplit]
      have := one_le_symWeight rules (N - d) s[i]
      omega
    | some repl =>
      by_cases hd : d < N
      · simp only [expandStep, dif_pos hi, hlk, if_pos hd]
        rw [stackWeight_cons, stackWeight_cons, stackWeight_cons, hsplit]
        have hNd : N - d = (N - d - 1) + 1 := by omega
        have h2 : symWeight rules (N - d) s[i]
            = 2 + (repl.map (symWeight rules (N - d - 1))).sum := by
          rw [hNd]; simp [symWeight, hlk]
        have h3 : frameWeight rules N (repl, 0, d + 1)
            = (repl.map (symWeight rules (N - d - 1))).sum := by
          have : N - (d + 1) = N - d - 1 := by omega
          simp [frameWeight, this]
        omega
      · simp only [expandStep, dif_pos hi, hlk, if_neg hd]
        rw [stackWeight_cons, stackWeight_cons, hsplit]
        have := one_le_symWeight rules (N - d) s[i]
        omega
  · simp only [expandStep, dif_neg hi]
    rw [stackWeight_cons]
    omega

theorem expandStep_out (rules : Rules) (N : Nat) (f : Frame) (rest : List Frame) :
    (expandStep rules N (f :: rest)).1 ++ stackOut rules N (expandStep rules N (f :: rest)).2
      = stackOut rules N (f :: rest) := by
  obtain ⟨s, i, d⟩ := f
  by_cases hi : i < s.length
  · have hsplit := frameOut_split rules N s i d hi
    cases hlk : rules.lookup s[i] with
    | none =>
      simp only [expandStep, dif_pos hi, hlk]
      rw [stackOut_cons, stackOut_cons, hsplit]
      have hN : expandNaive rules (N - d) s[i] = [s[i]] := by
        cases hnd : N - d with
        | zero => simp [expandNaive]
        | succ m => simp [expandNaive, hlk]
      simp [hN]
    | some repl =>
      by_cases hd : d < N
      · simp only [expandStep, dif_pos hi, hlk, if_pos hd]
        rw [stackOut_cons, stackOut_cons, stackOut_cons, hsplit]
        have hNd : N - d = (N - d - 1) + 1 := by omega
        have h2 : expandNaive rules (N - d) s[i]
            = (repl.map (expandNaive rules (N - d - 1))).flatten := by
          rw [hNd]; simp [expandNaive, hlk]
        have h3 : frameOut rules N (repl, 0, d + 1)
            = (repl.map (expandNaive rules (N - d - 1))).flatten := by
          have : N - (d + 1) = N - d - 1 := by omega
          simp [frameOut, this]
        simp [h2, h3]
      · simp only [expandStep, dif_pos hi, hlk, if_neg hd]
        rw [stackOut_cons, stackOut_cons, hsplit]
        have hnd : N - d = 0 := by omega
        have hN : expandNaive rules (N - d) s[i] = [s[i]] := by
          rw [hnd]; simp [expandNaive]
        simp [hN]
  · simp only [expandStep, dif_neg hi]
    rw [stackOut_cons, frameOut_exhausted rules N s i d hi]

theorem expandRun_spec (rules : Rules) (N : Nat) :
    ∀ (fuel : Nat) (stack : List Frame), stackWeight rules N stack ≤ fuel →
      expandRun rules N fuel stack = (stackOut rules N stack, []) := by
  intro fuel
  induction fuel with
  | zero =>
    intro stack h
    cases stack with
    | nil => simp [expandRun, stackOut]
    | cons f rest =>
      rw [stackWeight_cons] at h
      omega
  | succ n ih =>
    intro stack h
    cases stack with
    | nil => simp [expandRun, stackOut]
    | cons f rest =>
      have hlt := expandStep_weight rules N f rest
      have hle : stackWeight rules N (expandStep rules N (f :: rest)).2 ≤ n := by omega
      have hrun := ih _ hle
      have hout := expandStep_out rules N f rest
      simp [expandRun, hrun, ← hout]

theorem stream_expand_eq (ax : List Char) (rules : Rules) (N : Nat) :
    stream_expand ax rules N = (ax.map (expandNaive rules N)).flatten := by
  unfold stream_expand
  rw [expandRun_spec rules N _ _ (le_refl _)]
  simp [stackOut, frameOut]

end LSys
namespace LSys

theorem expandNaive_no_rule (rules : Rules) (fuel : Nat) (ch : Char)
    (h : rules.lookup ch = none) : expandNaive rules fuel ch = [ch] := by
  cases fuel with
  | zero => simp [expandNaive]
  | succ n => simp [expandNaive, h]

theorem flatten_map_eq_self (f : Char → List Char) (h : ∀ ch, f ch = [ch]) :
    ∀ l : List Char, (l.map f).flatten = l := by
  intro l
  induction l with
  | nil => simp
  | cons a t ih => simp [h, ih]

/-- Claim C1: the explicit-stack rewriter `stream_expand` yields, for every
axiom, rule set and iteration count, exactly the symbols of the spec's naive
recursive `expand(sym, depth)` applied left-to-right to the axiom at depth 0;
for rules A→AB, B→A and axiom A the outputs at N = 0..3 are
A, AB, ABA, ABAAB. -/
theorem stream_expand_refines_naive :
    (∀ (ax : List Char) (rules : Rules) (N : Nat),
      stream_expand ax rules N = (ax.map (expandNaive rules N)).flatten)
    ∧ stream_expand ['A'] exRules 0 = ['A']
    ∧ stream_expand ['A'] exRules 1 = ['A', 'B']
    ∧ stream_expand ['A'] exRules 2 = ['A', 'B', 'A']
    ∧ stream_expand ['A'] exRules 3 = ['A', 'B', 'A', 'A', 'B'] :=
  ⟨stream_expand_eq, by decide, by decide, by decide, by decide⟩

/-- Claim C6: the expansion is the identity for an empty rule set at every
iteration count, and for zero iterations with any rule set. -/
theorem stream_expand_identity_cases :
    (∀ (ax : List Char) (N : Nat), stream_expand ax [] N = ax)
    ∧ (∀ (ax : List Char) (rules : Rules), stream_expand ax rules 0 = ax) := by
  constructor
  · intro ax N
    rw [stream_expand_eq]
    exact flatten_map_eq_self _ (fun ch => expandNaive_no_rule [] N ch (List.lookup_nil)) ax
  · intro ax rules
    rw [stream_expand_eq]
    exact flatten_map_eq_self _ (fun ch => rfl) ax

/-- Claim C7: the explicit-stack loop of the rewriter terminates — running it
for `stackWeight` iterations (a finite number computed from the stack) empties
the stack from any starting stack, and from the initial frame it ends with the
empty stack having yielded exactly the symbols of `stream_expand`. -/
theorem stream_expand_terminates :
    (∀ (rules : Rules) (N fuel : Nat) (stack : List Frame),
        stackWeight rules N stack ≤ fuel →
        expandRun rules N fuel stack = (stackOut rules N stack, []))
    ∧ (∀ (ax : List Char) (rules : Rules) (N : Nat),
        expandRun rules N (stackWeight rules N [(ax, 0, 0)]) [(ax, 0, 0)]
          = (stream_expand ax rules N, [])) := by
  refine ⟨fun rules N fuel stack h => expandRun_spec rules N fuel stack h, ?_⟩
  intro ax rules N
  rw [expandRun_spec rules N _ _ (le_refl _)]
  unfold stream_expand
  rw [expandRun_spec rules N _ _ (le_refl _)]

/-- Witness for C7 at a concrete input. -/
theorem stream_expand_terminates_witness :
    stackWeight exRules 2 [(['A'], 0, 0)] ≤ 64
    ∧ expandRun exRules 2 64 [(['A'], 0, 0)] = (stackOut exRules 2 [(['A'], 0, 0)], []) :=
  ⟨by decide, stream_expand_terminates.1 exRules 2 64 [(['A'], 0, 0)] (by decide)⟩

end LSys
namespace LSys

theorem cosDeg_zero : cosDeg 0 = 1 := by simp [cosDeg, radiansOf]

theorem sinDeg_zero : sinDeg 0 = 0 := by simp [sinDeg, radiansOf]

theorem radiansOf_ninety : radiansOf 90 = Real.pi / 2 := by rw [radiansOf]; ring

theorem cosDeg_ninety : cosDeg 90 = 0 := by
  rw [cosDeg, radiansOf_ninety, Real.cos_pi_div_two]

theorem sinDeg_ninety : sinDeg 90 = 1 := by
  rw [sinDeg, radiansOf_ninety, Real.sin_pi_div_two]

end LSys
namespace LSys

theorem interpretSym_push (cmds : CmdTable) (angle_deg step : ℝ) (da : String)
    (st : InterpState) (sym : Char) (h : resolveAction cmds da sym = .push) :
    interpretSym cmds angle_deg step da st sym
      = .ok { st with stack := ⟨st.x, st.y, st.heading⟩ :: st.stack } := by
  simp [interpretSym, h]

theorem interpretSym_pop (cmds : CmdTable) (angle_deg step : ℝ) (da : String)
    (st : InterpState) (sym : Char) (top : TurtleState) (rest : List TurtleState)
    (h : resolveAction cmds da sym = .pop) (hs : st.stack = top :: rest) :
    interpretSym cmds angle_deg step da st sym
      = .ok { st with x := top.x, y := top.y, heading := top.heading_deg,
                      stack := rest, buf := st.buf.start_new (top.x, top.y) } := by
  simp [interpretSym, h, hs]

theorem interpretSym_pop_empty (cmds : CmdTable) (angle_deg step : ℝ) (da : String)
    (st : InterpState) (sym : Char)
    (h : resolveAction cmds da sym = .pop) (hs : st.stack = []) :
    interpretSym cmds angle_deg step da st sym
      = .error (.configError "pop command encountered with empty stack") := by
  simp [interpretSym, h, hs]

theorem interpretSym_turn_abs (cmds : CmdTable) (angle_deg step : ℝ) (da : String)
    (st : InterpState) (sym : Char) (a : ℝ)
    (h : resolveAction cmds da sym = .turn_abs a) :
    interpretSym cmds angle_deg step da st sym
      = .ok { st with heading := st.heading + a } := by
  simp [interpretSym, h]

theorem interpretSym_forward_move (cmds : CmdTable) (angle_deg step : ℝ) (da : String)
    (st : InterpState) (sym : Char) (mult : ℝ)
    (h : resolveAction cmds da sym = .forward false mult) :
    interpretSym cmds angle_deg step da st sym
      = .ok { st with
          x := st.x + step * mult * cosDeg st.heading,
          y := st.y + step * mult * sinDeg st.heading,
          buf := st.buf.start_new
            (st.x + step * mult * cosDeg st.heading,
             st.y + step * mult * sinDeg st.heading) } := by
  simp [interpretSym, h]

end LSys
namespace LSys

theorem add_point_eq_none (b : PolylineBuffer) (p : Point)
    (hl : b.polylines.getLast? = none) :
    b.add_point p = .error (.runtimeError "current called before start_new") := by
  unfold PolylineBuffer.add_point
  rw [hl]

theorem add_point_eq_some (b : PolylineBuffer) (p : Point) (cur : List Point)
    (hl : b.polylines.getLast? = some cur) :
    b.add_point p
      = if cur.getLast? = some p then .ok b
        else .ok ⟨b.polylines.dropLast ++ [cur ++ [p]]⟩ := by
  unfold PolylineBuffer.add_point
  rw [hl]

theorem add_point_nonempty (b : PolylineBuffer) (p : Point) (b2 : PolylineBuffer)
    (h : b.add_point p = .ok b2) : b2.polylines ≠ [] := by
  cases hl : b.polylines.getLast? with
  | none => rw [add_point_eq_none b p hl] at h; cases h
  | some cur =>
    rw [add_point_eq_some b p cur hl] at h
    by_cases hp : cur.getLast? = some p
    · rw [if_pos hp] at h
      cases h
      intro hnil
      rw [hnil] at hl
      cases hl
    · rw [if_neg hp] at h
      cases h
      simp

theorem add_point_ok_of_nonempty (b : PolylineBuffer) (p : Point)
    (hne : b.polylines ≠ []) : ∃ b2, b.add_point p = .ok b2 := by
  rw [add_point_eq_some b p _ (List.getLast?_eq_getLast_of_ne_nil hne)]
  by_cases hp : (b.polylines.getLast hne).getLast? = some p
  · rw [if_pos hp]; exact ⟨b, rfl⟩
  · rw [if_neg hp]; exact ⟨_, rfl⟩

theorem add_point_chain (b : PolylineBuffer) (p : Point) (b2 : PolylineBuffer)
    (hinv : ∀ pl ∈ b.polylines, pl.Chain' (· ≠ ·))
    (h : b.add_point p = .ok b2) :
    ∀ pl ∈ b2.polylines, pl.Chain' (· ≠ ·) := by
  cases hl : b.polylines.getLast? with
  | none => rw [add_point_eq_none b p hl] at h; cases h
  | some cur =>
    rw [add_point_eq_some b p cur hl] at h
    by_cases hp : cur.getLast? = some p
    · rw [if_pos hp] at h
      cases h
      exact hinv
    · rw [if_neg hp] at h
      cases h
      intro pl hpl
      rcases List.mem_append.1 hpl with hd | hlast
      · exact hinv pl (List.dropLast_subset _ hd)
      · rw [List.mem_singleton] at hlast
        subst hlast
        have hcur_mem : cur ∈ b.polylines := by
          have hsplit := @List.dropLast_append_getLast? _ b.polylines cur (by simp [hl])
          rw [← hsplit]
          exact List.mem_append_right _ (List.mem_singleton_self _)
        rw [List.chain'_append]
        refine ⟨hinv cur hcur_mem, List.chain'_singleton p, ?_⟩
        intro x hx y hy
        simp only [List.head?_cons, Option.mem_def, Option.some.injEq] at hy
        subst hy
        simp only [Option.mem_def] at hx
        intro hxy
        rw [hxy] at hx
        exact hp hx

theorem start_new_nonempty (b : PolylineBuffer) (p : Point) :
    (b.start_new p).polylines ≠ [] := by
  simp [PolylineBuffer.start_new]

theorem start_new_chain (b : PolylineBuffer) (p : Point)
    (hinv : ∀ pl ∈ b.polylines, pl.Chain' (· ≠ ·)) :
    ∀ pl ∈ (b.start_new p).polylines, pl.Chain' (· ≠ ·) := by
  intro pl hpl
  rcases List.mem_append.1 hpl with hd | hlast
  · exact hinv pl hd
  · rw [List.mem_singleton] at hlast
    subst hlast
    exact List.chain'_singleton p

end LSys
namespace LSys

theorem interpretSym_nonempty (cmds : CmdTable) (angle_deg step : ℝ) (da : String)
    (st : InterpState) (sym : Char) (st' : InterpState)
    (h : interpretSym cmds angle_deg step da st sym = .ok st')
    (hne : st.buf.polylines ≠ []) : st'.buf.polylines ≠ [] := by
  cases hr : resolveAction cmds da sym with
  | noop =>
    simp only [interpretSym, hr, Except.ok.injEq] at h
    subst h; exact hne
  | turn d a =>
    simp only [interpretSym, hr] at h
    split at h
    · simp only [Except.ok.injEq] at h
      subst h; exact hne
    · cases h
  | turn_abs a =>
    simp only [interpretSym, hr, Except.ok.injEq] at h
    subst h; exact hne
  | push =>
    simp only [interpretSym, hr, Except.ok.injEq] at h
    subst h; exact hne
  | pop =>
    cases hs : st.stack with
    | nil =>
      simp only [interpretSym, hr, hs] at h
      cases h
    | cons top rest =>
      simp only [interpretSym, hr, hs, Except.ok.injEq] at h
      subst h
      exact start_new_nonempty st.buf (top.x, top.y)
  | forward draw mult =>
    cases draw with
    | true =>
      simp only [interpretSym, hr, if_true] at h
      cases hap : st.buf.add_point
          (st.x + step * mult * cosDeg st.heading, st.y + step * mult * sinDeg st.heading) with
      | error e => rw [hap] at h; cases h
      | ok b2 =>
        rw [hap] at h
        simp only [Except.ok.injEq] at h
        subst h
        exact add_point_nonempty _ _ _ hap
    | false =>
      simp only [interpretSym, hr, if_neg Bool.false_ne_true, Except.ok.injEq] at h
      subst h
      exact start_new_nonempty st.buf _

end LSys
namespace LSys

theorem interpretSym_chain (cmds : CmdTable) (angle_deg step : ℝ) (da : String)
    (st : InterpState) (sym : Char) (st' : InterpState)
    (h : interpretSym cmds angle_deg step da st sym = .ok st')
    (hinv : ∀ pl ∈ st.buf.polylines, pl.Chain' (· ≠ ·)) :
    ∀ pl ∈ st'.buf.polylines, pl.Chain' (· ≠ ·) := by
  cases hr : resolveAction cmds da sym with
  | noop =>
    simp only [interpretSym, hr, Except.ok.injEq] at h
    subst h; exact hinv
  | turn d a =>
    simp only [interpretSym, hr] at h
    split at h
    · simp only [Except.ok.injEq] at h
      subst h; exact hinv
    · cases h
  | turn_abs a =>
    simp only [interpretSym, hr, Except.ok.injEq] at h
    subst h; exact hinv
  | push =>
    simp only [interpretSym, hr, Except.ok.injEq] at h
    subst h; exact hinv
  | pop =>
    cases hs : st.stack with
    | nil =>
      simp only [interpretSym, hr, hs] at h
      cases h
    | cons top rest =>
      simp only [interpretSym, hr, hs, Except.ok.injEq] at h
      subst h
      exact start_new_chain st.buf (top.x, top.y) hinv
  | forward draw mult =>
    cases draw with
    | true =>
      simp only [interpretSym, hr, if_true] at h
      cases hap : st.buf.add_point
          (st.x + step * mult * cosDeg st.heading, st.y + step * mult * sinDeg st.heading) with
      | error e => rw [hap] at h; cases h
      | ok b2 =>
        rw [hap] at h
        simp only [Except.ok.injEq] at h
        subst h
        exact add_point_chain _ _ _ hinv hap
    | false =>
      simp only [interpretSym, hr, if_neg Bool.false_ne_true, Except.ok.injEq] at h
      subst h
      exact start_new_chain st.buf _ hinv

theorem interpretSym_ok_of_no_pop (cmds : CmdTable) (angle_deg step : ℝ) (da : String)
    (st : InterpState) (sym : Char)
    (hne : st.buf.polylines ≠ [])
    (hp : resolveAction cmds da sym ≠ .pop)
    (ht : ∀ d a, resolveAction cmds da sym = .turn d a → d = -1 ∨ d = 1) :
    ∃ st', interpretSym cmds angle_deg step da st sym = .ok st' := by
  cases hr : resolveAction cmds da sym with
  | noop => exact ⟨st, by simp [interpretSym, hr]⟩
  | turn d a =>
    have hd := ht d a hr
    exact ⟨{ st with heading := st.heading + (d : ℝ) * a * angle_deg },
      by simp [interpretSym, hr, if_pos hd]⟩
  | turn_abs a =>
    exact ⟨{ st with heading := st.heading + a }, by simp [interpretSym, hr]⟩
  | push =>
    exact ⟨{ st with stack := ⟨st.x, st.y, st.heading⟩ :: st.stack },
      by simp [interpretSym, hr]⟩
  | pop => exact absurd hr hp
  | forward draw mult =>
    cases draw with
    | true =>
      obtain ⟨b2, hb2⟩ := add_point_ok_of_nonempty st.buf
        (st.x + step * mult * cosDeg st.heading, st.y + step * mult * sinDeg st.heading) hne
      exact ⟨{ st with
          x := st.x + step * mult * cosDeg st.heading,
          y := st.y + step * mult * sinDeg st.heading,
          buf := b2 },
        by simp only [interpretSym, hr, if_true, hb2]⟩
    | false =>
      exact ⟨{ st with
          x := st.x + step * mult * cosDeg st.heading,
          y := st.y + step * mult * sinDeg st.heading,
          buf := st.buf.start_new
            (st.x + step * mult * cosDeg st.heading,
             st.y + step * mult * sinDeg st.heading) },
        by simp only [interpretSym, hr, if_neg Bool.false_ne_true]⟩

end LSys
namespace LSys

theorem interpretLoop_chain (cmds : CmdTable) (angle_deg step : ℝ) (da : String) :
    ∀ (syms : List Char) (st st' : InterpState),
      (∀ pl ∈ st.buf.polylines, pl.Chain' (· ≠ ·)) →
      interpretLoop cmds angle_deg step da st syms = .ok st' →
      ∀ pl ∈ st'.buf.polylines, pl.Chain' (· ≠ ·) := by
  intro syms
  induction syms with
  | nil =>
    intro st st' hinv h
    simp only [interpretLoop, Except.ok.injEq] at h
    subst h
    exact hinv
  | cons sym rest ih =>
    intro st st' hinv h
    simp only [interpretLoop] at h
    cases hsym : interpretSym cmds angle_deg step da st sym with
    | error e => rw [hsym] at h; cases h
    | ok st2 =>
      rw [hsym] at h
      exact ih st2 st' (interpretSym_chain cmds angle_deg step da st sym st2 hsym hinv) h

theorem interpretLoop_noop (cmds : CmdTable) (angle_deg step : ℝ) (da : String) :
    ∀ (syms : List Char) (st : InterpState),
      (∀ sym ∈ syms, resolveAction cmds da sym = .noop) →
      interpretLoop cmds angle_deg step da st syms = .ok st := by
  intro syms
  induction syms with
  | nil => intro st _; rfl
  | cons sym rest ih =>
    intro st hnoop
    have h1 : interpretSym cmds angle_deg step da st sym = .ok st := by
      simp [interpretSym, hnoop sym (List.mem_cons_self _ _)]
    simp only [interpretLoop, h1]
    exact ih st fun s hs => hnoop s (List.mem_cons_of_mem _ hs)

theorem interpretLoop_ok_of_no_pop (cmds : CmdTable) (angle_deg step : ℝ) (da : String) :
    ∀ (syms : List Char) (st : InterpState),
      st.buf.polylines ≠ [] →
      (∀ sym ∈ syms, resolveAction cmds da sym ≠ .pop) →
      (∀ sym ∈ syms, ∀ d a, resolveAction cmds da sym = .turn d a → d = -1 ∨ d = 1) →
      ∃ st', interpretLoop cmds angle_deg step da st syms = .ok st' := by
  intro syms
  induction syms with
  | nil => intro st _ _ _; exact ⟨st, rfl⟩
  | cons sym rest ih =>
    intro st hne hp ht
    obtain ⟨st2, hst2⟩ := interpretSym_ok_of_no_pop cmds angle_deg step da st sym hne
      (hp sym (List.mem_cons_self _ _)) (ht sym (List.mem_cons_self _ _))
    have hne2 := interpretSym_nonempty cmds angle_deg step da st sym st2 hst2 hne
    obtain ⟨st', hst'⟩ := ih st2 hne2
      (fun s hs => hp s (List.mem_cons_of_mem _ hs))
      (fun s hs => ht s (List.mem_cons_of_mem _ hs))
    refine ⟨st', ?_⟩
    simp only [interpretLoop, hst2]
    exact hst'

theorem interpret_eq_of_ok (symbols : List Char) (cmds : CmdTable)
    (angle_deg step : ℝ) (start : TurtleState) (da : String) (st : InterpState)
    (hstep : 0 < step)
    (hda : da = "forward_draw" ∨ da = "forward_move" ∨ da = "noop")
    (hloop : interpretLoop cmds angle_deg step da (initState start) symbols = .ok st) :
    interpret_to_polylines symbols cmds angle_deg step start da
      = .ok (st.buf.polylines.filter (fun pl => decide (2 ≤ pl.length))) := by
  rw [interpret_to_polylines, if_pos hstep, if_pos hda, hloop]

theorem interpret_min_length (symbols : List Char) (cmds : CmdTable)
    (angle_deg step : ℝ) (start : TurtleState) (da : String) (res : List (List Point))
    (h : interpret_to_polylines symbols cmds angle_deg step start da = .ok res) :
    ∀ pl ∈ res, 2 ≤ pl.length := by
  rw [interpret_to_polylines] at h
  by_cases h1 : 0 < step
  · rw [if_pos h1] at h
    by_cases h2 : da = "forward_draw" ∨ da = "forward_move" ∨ da = "noop"
    · rw [if_pos h2] at h
      cases hloop : interpretLoop cmds angle_deg step da (initState start) symbols with
      | error e => rw [hloop] at h; cases h
      | ok st =>
        rw [hloop] at h
        simp only [Except.ok.injEq] at h
        subst h
        intro pl hpl
        have hm := List.mem_filter.1 hpl
        simpa using hm.2
    · rw [if_neg h2] at h; cases h
  · rw [if_neg h1] at h; cases h

theorem interpret_chain (symbols : List Char) (cmds : CmdTable)
    (angle_deg step : ℝ) (start : TurtleState) (da : String) (res : List (List Point))
    (h : interpret_to_polylines symbols cmds angle_deg step start da = .ok res) :
    ∀ pl ∈ res, pl.Chain' (· ≠ ·) := by
  rw [interpret_to_polylines] at h
  by_cases h1 : 0 < step
  · rw [if_pos h1] at h
    by_cases h2 : da = "forward_draw" ∨ da = "forward_move" ∨ da = "noop"
    · rw [if_pos h2] at h
      cases hloop : interpretLoop cmds angle_deg step da (initState start) symbols with
      | error e => rw [hloop] at h; cases h
      | ok st =>
        rw [hloop] at h
        simp only [Except.ok.injEq] at h
        subst h
        intro pl hpl
        have hm := List.mem_filter.1 hpl
        have hinv0 : ∀ pl ∈ (initState start).buf.polylines, pl.Chain' (· ≠ ·) := by
          intro pl hpl0
          simp only [initState] at hpl0
          rw [List.mem_singleton] at hpl0
          subst hpl0
          exact List.chain'_singleton _
        exact interpretLoop_chain cmds angle_deg step da symbols (initState start) st
          hinv0 hloop pl hm.1
    · rw [if_neg h2] at h; cases h
  · rw [if_neg h1] at h; cases h

end LSys
namespace LSys

/-- Claim C2: Push saves the turtle state without starting a new polyline;
Pop restores the saved state and always starts a new polyline seeded at the
restored point; the branching example F[+F]F yields exactly the two
polylines of the spec. -/
theorem push_pop_polyline_semantics :
    (∀ (cmds : CmdTable) (angle_deg step : ℝ) (da : String) (st : InterpState) (sym : Char),
        resolveAction cmds da sym = .push →
        interpretSym cmds angle_deg step da st sym
          = .ok { st with stack := ⟨st.x, st.y, st.heading⟩ :: st.stack })
    ∧ (∀ (cmds : CmdTable) (angle_deg step : ℝ) (da : String) (st : InterpState) (sym : Char)
          (top : TurtleState) (rest : List TurtleState),
        resolveAction cmds da sym = .pop → st.stack = top :: rest →
        interpretSym cmds angle_deg step da st sym
          = .ok { st with x := top.x, y := top.y, heading := top.heading_deg,
                          stack := rest, buf := st.buf.start_new (top.x, top.y) })
    ∧ interpret_to_polylines ['F', '[', '+', 'F', ']', 'F'] cmdsBranch 90 10 ⟨0, 0, 0⟩ "noop"
        = .ok [[((0 : ℝ), (0 : ℝ)), (10, 0), (10, 10)], [(10, 0), (20, 0)]] := by
  refine ⟨?_, ?_, ?_⟩
  · intro cmds angle_deg step da st sym h
    exact interpretSym_push cmds angle_deg step da st sym h
  · intro cmds angle_deg step da st sym top rest h hs
    exact interpretSym_pop cmds angle_deg step da st sym top rest h hs
  · have rF : resolveAction cmdsBranch "noop" 'F' = .forward true 1 := rfl
    have rB : resolveAction cmdsBranch "noop" '[' = .push := rfl
    have rT : resolveAction cmdsBranch "noop" '+' = .turn 1 1 := rfl
    have rQ : resolveAction cmdsBranch "noop" ']' = .pop := rfl
    norm_num [interpret_to_polylines, interpretLoop, interpretSym, rF, rB, rT, rQ,
      initState, PolylineBuffer.add_point, PolylineBuffer.start_new, cosDeg_zero, sinDeg_zero,
      cosDeg_ninety, sinDeg_ninety, Prod.ext_iff]

/-- Witness for C2: the push and pop transitions at a concrete state. -/
theorem push_pop_polyline_semantics_witness :
    interpretSym cmdsBranch 90 10 "noop" stWitness '['
      = .ok ⟨1, 2, 3, ⟨[[(1, 2)]]⟩, [⟨1, 2, 3⟩, ⟨4, 5, 6⟩]⟩
    ∧ interpretSym cmdsBranch 90 10 "noop" stWitness ']'
      = .ok ⟨4, 5, 6, ⟨[[(1, 2)], [(4, 5)]]⟩, []⟩ :=
  ⟨push_pop_polyline_semantics.1 cmdsBranch 90 10 "noop" stWitness '[' rfl,
   push_pop_polyline_semantics.2.1 cmdsBranch 90 10 "noop" stWitness ']' ⟨4, 5, 6⟩ [] rfl rfl⟩

end LSys
namespace LSys

/-- Claim C5: a Forward action with draw=false starts a brand-new polyline
seeded with the destination point (pen-up always breaks continuity); the
FfF example yields the two polylines of the spec. -/
theorem pen_up_splits_polylines :
    (∀ (cmds : CmdTable) (angle_deg step : ℝ) (da : String) (st : InterpState)
        (sym : Char) (mult : ℝ),
        resolveAction cmds da sym = .forward false mult →
        interpretSym cmds angle_deg step da st sym
          = .ok { st with
              x := st.x + step * mult * cosDeg st.heading,
              y := st.y + step * mult * sinDeg st.heading,
              buf := st.buf.start_new
                (st.x + step * mult * cosDeg st.heading,
                 st.y + step * mult * sinDeg st.heading) })
    ∧ interpret_to_polylines ['F', 'f', 'F'] cmdsPenUp 90 10 ⟨0, 0, 0⟩ "noop"
        = .ok [[((0 : ℝ), (0 : ℝ)), (10, 0)], [(20, 0), (30, 0)]] := by
  refine ⟨?_, ?_⟩
  · intro cmds angle_deg step da st sym mult h
    exact interpretSym_forward_move cmds angle_deg step da st sym mult h
  · have rF : resolveAction cmdsPenUp "noop" 'F' = .forward true 1 := rfl
    have rf : resolveAction cmdsPenUp "noop" 'f' = .forward false 1 := rfl
    norm_num [interpret_to_polylines, interpretLoop, interpretSym, rF, rf,
      initState, PolylineBuffer.add_point, PolylineBuffer.start_new, cosDeg_zero, sinDeg_zero,
      Prod.ext_iff]

/-- Witness for C5: the pen-up transition at a concrete state with heading 0. -/
theorem pen_up_splits_polylines_witness :
    interpretSym cmdsPenUp 90 10 "noop" (initState ⟨0, 0, 0⟩) 'f'
      = .ok ⟨10, 0, 0, ⟨[[(0, 0)], [(10, 0)]]⟩, []⟩ := by
  have h := pen_up_splits_polylines.1 cmdsPenUp 90 10 "noop" (initState ⟨0, 0, 0⟩) 'f' 1 rfl
  rw [h]
  norm_num [initState, PolylineBuffer.start_new, cosDeg_zero, sinDeg_zero, Prod.ext_iff,
    InterpState.mk.injEq, PolylineBuffer.mk.injEq]

/-- Claim C8: a TurnAbsolute action adds its angle to the current heading
(an increment, not a reset), leaving position and buffer unchanged; the AF
example with turn_abs(90) and base angle 45 ends at (0, 10). -/
theorem turn_abs_is_additive :
    (∀ (cmds : CmdTable) (angle_deg step : ℝ) (da : String) (st : InterpState)
        (sym : Char) (a : ℝ),
        resolveAction cmds da sym = .turn_abs a →
        interpretSym cmds angle_deg step da st sym
          = .ok { st with heading := st.heading + a })
    ∧ interpret_to_polylines ['A', 'F'] cmdsTurnAbs 45 10 ⟨0, 0, 0⟩ "noop"
        = .ok [[((0 : ℝ), (0 : ℝ)), (0, 10)]] := by
  refine ⟨?_, ?_⟩
  · intro cmds angle_deg step da st sym a h
    exact interpretSym_turn_abs cmds angle_deg step da st sym a h
  · have rA : resolveAction cmdsTurnAbs "noop" 'A' = .turn_abs 90 := rfl
    have rF : resolveAction cmdsTurnAbs "noop" 'F' = .forward true 1 := rfl
    norm_num [interpret_to_polylines, interpretLoop, interpretSym, rA, rF,
      initState, PolylineBuffer.add_point, PolylineBuffer.start_new, cosDeg_zero, sinDeg_zero,
      cosDeg_ninety, sinDeg_ninety, Prod.ext_iff]

/-- Witness for C8: the absolute turn at a concrete state. -/
theorem turn_abs_is_additive_witness :
    interpretSym cmdsTurnAbs 45 10 "noop" (initState ⟨0, 0, 0⟩) 'A'
      = .ok ⟨0, 0, 90, ⟨[[(0, 0)]]⟩, []⟩ := by
  have h := turn_abs_is_additive.1 cmdsTurnAbs 45 10 "noop" (initState ⟨0, 0, 0⟩) 'A' 90 rfl
  rw [h]
  norm_num [initState, InterpState.mk.injEq]

end LSys
namespace LSys

/-- Counterexample for C3 as stated: the pop-underflow failure is raised as
the `ConfigError` class — the very same error kind that configuration
failures such as a non-positive step use — so the claimed distinct
`StackUnderflowError` kind does not exist in the code. -/
theorem pop_underflow_same_kind_cex :
    interpret_to_polylines [']'] cmdsPop 90 10 ⟨0, 0, 0⟩ "noop"
      = .error (.configError "pop command encountered with empty stack")
    ∧ interpret_to_polylines [] cmdsPop 90 0 ⟨0, 0, 0⟩ "noop"
      = .error (.configError "turtle.step must be > 0")
    ∧ (LsysError.configError "pop command encountered with empty stack").isConfigError = true := by
  refine ⟨?_, ?_, rfl⟩
  · have rQ : resolveAction cmdsPop "noop" ']' = .pop := rfl
    norm_num [interpret_to_polylines, interpretLoop, interpretSym, rQ, initState]
  · norm_num [interpret_to_polylines]

/-- Claim C3 (amended): interpreting a symbol whose action is Pop while the
branch stack is empty fails, with a `ConfigError` whose message reports pop
on an empty stack — the code reports underflow through the same
`ConfigError` kind as configuration errors, not a distinct kind. -/
theorem pop_underflow_fails :
    (∀ (cmds : CmdTable) (angle_deg step : ℝ) (da : String) (st : InterpState) (sym : Char),
        resolveAction cmds da sym = .pop → st.stack = [] →
        interpretSym cmds angle_deg step da st sym
          = .error (.configError "pop command encountered with empty stack"))
    ∧ interpret_to_polylines [']'] cmdsPop 90 10 ⟨0, 0, 0⟩ "noop"
        = .error (.configError "pop command encountered with empty stack") := by
  refine ⟨?_, ?_⟩
  · intro cmds angle_deg step da st sym h hs
    exact interpretSym_pop_empty cmds angle_deg step da st sym h hs
  · have rQ : resolveAction cmdsPop "noop" ']' = .pop := rfl
    norm_num [interpret_to_polylines, interpretLoop, interpretSym, rQ, initState]

/-- Witness for the amended C3: pop at a concrete state with empty stack. -/
theorem pop_underflow_fails_witness :
    interpretSym cmdsPop 90 10 "noop" (initState ⟨0, 0, 0⟩) ']'
      = .error (.configError "pop command encountered with empty stack") :=
  pop_underflow_fails.1 cmdsPop 90 10 "noop" (initState ⟨0, 0, 0⟩) ']' rfl rfl

/-- Counterexample for C4 as stated: bounds computation on an empty
polyline list fails with the `ConfigError` class — the very same error kind
that configuration failures such as a non-positive step use — so the
claimed `GeometryError` kind does not exist in the code. -/
theorem bounds_error_same_kind_cex :
    compute_bounds [] = .error (.configError "No drawable geometry produced.")
    ∧ interpret_to_polylines [] cmdsDraw 90 0 ⟨0, 0, 0⟩ "noop"
      = .error (.configError "turtle.step must be > 0")
    ∧ (LsysError.configError "No drawable geometry produced.").isConfigError = true := by
  refine ⟨?_, ?_, rfl⟩
  · norm_num [compute_bounds]
  · norm_num [interpret_to_polylines]

/-- Claim C4 (amended): every polyline returned by the interpreter has at
least two points; a run whose symbols all resolve to Noop returns no
polylines; and bounds computation on an empty polyline list fails with a
`ConfigError` reading "No drawable geometry produced." — the code has no
distinct `GeometryError` kind. -/
theorem degenerate_polylines_filtered :
    (∀ (symbols : List Char) (cmds : CmdTable) (angle_deg step : ℝ)
        (start : TurtleState) (da : String) (res : List (List Point)),
        interpret_to_polylines symbols cmds angle_deg step start da = .ok res →
        ∀ pl ∈ res, 2 ≤ pl.length)
    ∧ (∀ (symbols : List Char) (cmds : CmdTable) (angle_deg step : ℝ)
        (start : TurtleState) (da : String),
        0 < step →
        (da = "forward_draw" ∨ da = "forward_move" ∨ da = "noop") →
        (∀ sym ∈ symbols, resolveAction cmds da sym = .noop) →
        interpret_to_polylines symbols cmds angle_deg step start da = .ok [])
    ∧ compute_bounds [] = .error (.configError "No drawable geometry produced.") := by
  refine ⟨?_, ?_, ?_⟩
  · intro symbols cmds angle_deg step start da res h
    exact interpret_min_length symbols cmds angle_deg step start da res h
  · intro symbols cmds angle_deg step start da hstep hda hnoop
    have hloop := interpretLoop_noop cmds angle_deg step da symbols (initState start) hnoop
    rw [interpret_eq_of_ok symbols cmds angle_deg step start da (initState start) hstep hda hloop]
    simp [initState]
  · norm_num [compute_bounds]

/-- Witness for C4 at concrete inputs. -/
theorem degenerate_polylines_filtered_witness :
    (2 ≤ ([((0 : ℝ), (0 : ℝ)), (10, 0)] : List Point).length)
    ∧ interpret_to_polylines ['X'] cmdsNoop 90 10 ⟨0, 0, 0⟩ "noop" = .ok [] := by
  have hF : interpret_to_polylines ['F'] cmdsDraw 90 10 ⟨0, 0, 0⟩ "noop"
      = .ok [[((0 : ℝ), (0 : ℝ)), (10, 0)]] := by
    have rF : resolveAction cmdsDraw "noop" 'F' = .forward true 1 := rfl
    norm_num [interpret_to_polylines, interpretLoop, interpretSym, rF,
      initState, PolylineBuffer.add_point, cosDeg_zero, sinDeg_zero, Prod.ext_iff]
  refine ⟨?_, ?_⟩
  · exact degenerate_polylines_filtered.1 ['F'] cmdsDraw 90 10 ⟨0, 0, 0⟩ "noop"
      [[((0 : ℝ), (0 : ℝ)), (10, 0)]] hF [((0 : ℝ), (0 : ℝ)), (10, 0)] (by simp)
  · exact degenerate_polylines_filtered.2.1 ['X'] cmdsNoop 90 10 ⟨0, 0, 0⟩ "noop"
      (by norm_num) (Or.inr (Or.inr rfl))
      (by intro sym hs; rw [List.mem_singleton] at hs; subst hs; rfl)

end LSys
namespace LSys

/-- Claim C9: a run whose symbols never resolve to Pop (so every Push is
unmatched) completes normally — the loop succeeds and the interpreter
returns its filtered polylines with no check that the branch stack is empty
at end-of-stream; concretely, a single unmatched push leaves a non-empty
stack and still returns a result. -/
theorem unmatched_push_not_error :
    (∀ (symbols : List Char) (cmds : CmdTable) (angle_deg step : ℝ)
        (start : TurtleState) (da : String),
        0 < step →
        (da = "forward_draw" ∨ da = "forward_move" ∨ da = "noop") →
        (∀ sym ∈ symbols, resolveAction cmds da sym ≠ .pop) →
        (∀ sym ∈ symbols, ∀ d a, resolveAction cmds da sym = .turn d a → d = -1 ∨ d = 1) →
        ∃ st', interpretLoop cmds angle_deg step da (initState start) symbols = .ok st'
          ∧ interpret_to_polylines symbols cmds angle_deg step start da
              = .ok (st'.buf.polylines.filter (fun pl => decide (2 ≤ pl.length))))
    ∧ interpretLoop cmdsPush 90 10 "noop" (initState ⟨0, 0, 0⟩) ['[']
        = .ok ⟨0, 0, 0, ⟨[[(0, 0)]]⟩, [⟨0, 0, 0⟩]⟩
    ∧ interpret_to_polylines ['['] cmdsPush 90 10 ⟨0, 0, 0⟩ "noop" = .ok [] := by
  refine ⟨?_, ?_, ?_⟩
  · intro symbols cmds angle_deg step start da hstep hda hp ht
    obtain ⟨st', hst'⟩ := interpretLoop_ok_of_no_pop cmds angle_deg step da symbols
      (initState start) (by simp [initState]) hp ht
    exact ⟨st', hst',
      interpret_eq_of_ok symbols cmds angle_deg step start da st' hstep hda hst'⟩
  · have rB : resolveAction cmdsPush "noop" '[' = .push := rfl
    norm_num [interpretLoop, interpretSym, rB, initState]
  · have rB : resolveAction cmdsPush "noop" '[' = .push := rfl
    norm_num [interpret_to_polylines, interpretLoop, interpretSym, rB, initState]

/-- Witness for C9 at a concrete input: one unmatched push. -/
theorem unmatched_push_not_error_witness :
    ∃ st', interpretLoop cmdsPush 90 10 "noop" (initState ⟨0, 0, 0⟩) ['['] = .ok st'
      ∧ interpret_to_polylines ['['] cmdsPush 90 10 ⟨0, 0, 0⟩ "noop"
          = .ok (st'.buf.polylines.filter (fun pl => decide (2 ≤ pl.length))) :=
  unmatched_push_not_error.1 ['['] cmdsPush 90 10 ⟨0, 0, 0⟩ "noop"
    (by norm_num) (Or.inr (Or.inr rfl))
    (by intro sym hs hc; rw [List.mem_singleton] at hs; subst hs;
        rw [show resolveAction cmdsPush "noop" '[' = .push from rfl] at hc; cases hc)
    (by intro sym hs d a hc; rw [List.mem_singleton] at hs; subst hs;
        rw [show resolveAction cmdsPush "noop" '[' = .push from rfl] at hc; cases hc)

/-- Claim C10: no polyline ever held by the buffer during interpretation —
and hence none in the final output — contains two consecutive equal points,
whatever mix of actions produced it. -/
theorem no_consecutive_duplicate_points :
    (∀ (cmds : CmdTable) (angle_deg step : ℝ) (da : String) (symbols : List Char)
        (st st' : InterpState),
        (∀ pl ∈ st.buf.polylines, pl.Chain' (· ≠ ·)) →
        interpretLoop cmds angle_deg step da st symbols = .ok st' →
        ∀ pl ∈ st'.buf.polylines, pl.Chain' (· ≠ ·))
    ∧ (∀ (symbols : List Char) (cmds : CmdTable) (angle_deg step : ℝ)
        (start : TurtleState) (da : String) (res : List (List Point)),
        interpret_to_polylines symbols cmds angle_deg step start da = .ok res →
        ∀ pl ∈ res, pl.Chain' (· ≠ ·)) := by
  refine ⟨?_, ?_⟩
  · intro cmds angle_deg step da symbols st st' hinv h
    exact interpretLoop_chain cmds angle_deg step da symbols st st' hinv h
  · intro symbols cmds angle_deg step start da res h
    exact interpret_chain symbols cmds angle_deg step start da res h

/-- Witness for C10 at a concrete input. -/
theorem no_consecutive_duplicate_points_witness :
    List.Chain' (· ≠ ·) [((0 : ℝ), (0 : ℝ)), (10, 0)] := by
  have hF : interpret_to_polylines ['F'] cmdsDraw 90 10 ⟨0, 0, 0⟩ "noop"
      = .ok [[((0 : ℝ), (0 : ℝ)), (10, 0)]] := by
    have rF : resolveAction cmdsDraw "noop" 'F' = .forward true 1 := rfl
    norm_num [interpret_to_polylines, interpretLoop, interpretSym, rF,
      initState, PolylineBuffer.add_point, cosDeg_zero, sinDeg_zero, Prod.ext_iff]
  exact no_consecutive_duplicate_points.2 ['F'] cmdsDraw 90 10 ⟨0, 0, 0⟩ "noop"
    [[((0 : ℝ), (0 : ℝ)), (10, 0)]] hF [((0 : ℝ), (0 : ℝ)), (10, 0)] (by simp)

end LSys
